import Mathlib

/-!
Formal model of the calculator state machine implemented in
`src/frontend/app/screens/HomeScreen.tsx`.

The component keeps four pieces of React state (`displayValue`,
`previousValue`, `operator`, `isNewEntry`) and mutates them through the
handlers `handleDigitPress`, `handleDotPress`, `performCalculation`,
`handleOperatorPress`, `handleEqualsPress`, `handleClearPress`,
`handleToggleSignPress` and `handlePercentPress`.  Each handler is embedded
below as a pure function on an explicit state record, and a button press is
a `Token` dispatched by `apply` (mirroring `handleButtonPress`).

JavaScript numbers are modelled as exact rationals extended with a `nan`
element (`JSNum`); `parseFloat` is modelled by `parseNum` (the decimal
literal fragment it accepts on calculator displays) and
`Number.prototype.toString` by `numToString` (sign, integer digits, and the
decimal expansion of the fractional part).
-/

namespace Calculator

/-- Exact fraction standing in for a JavaScript `number` value.  The
fraction is kept unnormalised; `den` is always positive. -/
structure Frac where
  num : Int
  den : Nat
  den_pos : 0 < den

instance : DecidableEq Frac := fun a b =>
  decidable_of_iff (a.num = b.num ∧ a.den = b.den) (by cases a; cases b; simp)

/-- Sum of two fractions (`a + b` in `performCalculation`). -/
def fracAdd (a b : Frac) : Frac :=
  ⟨a.num * b.den + b.num * a.den, a.den * b.den, Nat.mul_pos a.den_pos b.den_pos⟩

/-- Difference of two fractions (`a - b` in `performCalculation`). -/
def fracSub (a b : Frac) : Frac :=
  ⟨a.num * b.den - b.num * a.den, a.den * b.den, Nat.mul_pos a.den_pos b.den_pos⟩

/-- Product of two fractions (`a * b` in `performCalculation`). -/
def fracMul (a b : Frac) : Frac :=
  ⟨a.num * b.num, a.den * b.den, Nat.mul_pos a.den_pos b.den_pos⟩

/-- Quotient of two fractions (`a / b`), defined when the divisor is not
zero; the sign is moved into the numerator so the denominator stays a
positive natural. -/
def fracDiv (a b : Frac) (h : b.num ≠ 0) : Frac :=
  ⟨a.num * b.den * Int.sign b.num, a.den * b.num.natAbs,
    Nat.mul_pos a.den_pos (Int.natAbs_pos.mpr h)⟩

/-- The constant `100` used by `handlePercentPress`. -/
def frac100 : Frac := ⟨100, 1, by decide⟩

/-- A JavaScript `number` is either an exact value or `NaN`. -/
inductive JSNum where
  | nan : JSNum
  | num (f : Frac) : JSNum
deriving DecidableEq

/-- The four operator labels of `type Operator = "+" | "-" | "×" | "÷"`. -/
inductive Operator where
  | add : Operator
  | sub : Operator
  | mul : Operator
  | div : Operator
deriving DecidableEq

/-- `performCalculation(op, a, b)`: `+` adds, `-` subtracts, `×` multiplies,
and `÷` returns `NaN` when `b === 0` and `a / b` otherwise.  A `NaN`
operand propagates, as it does through JavaScript arithmetic. -/
def performCalculation (op : Operator) (a b : JSNum) : JSNum :=
  match a, b with
  | .num x, .num y =>
    match op with
    | .add => .num (fracAdd x y)
    | .sub => .num (fracSub x y)
    | .mul => .num (fracMul x y)
    | .div => if h : y.num = 0 then .nan else .num (fracDiv x y h)
  | _, _ => .nan

/-- The character for a decimal digit value (`'0'` has code 48). -/
def digitChar (n : Nat) : Char := Char.ofNat (48 + n)

/-- Big-endian decimal digits of a natural number, driven by explicit fuel
so that the kernel can evaluate it. -/
def natDigitsAux : Nat → Nat → List Char
  | 0, _ => []
  | fuel + 1, n =>
    if n < 10 then [digitChar n]
    else natDigitsAux fuel (n / 10) ++ [digitChar (n % 10)]

/-- Decimal digits of a natural number (`fuel = n + 1` always suffices). -/
def natDigits (n : Nat) : List Char := natDigitsAux (n + 1) n

/-- Digits after the decimal point of the fraction `r / d` (with
`r < d`), produced by long division and cut off by the fuel. -/
def fracDigitsAux : Nat → Nat → Nat → List Char
  | 0, _, _ => []
  | fuel + 1, r, d =>
    if r = 0 then []
    else digitChar (r * 10 / d) :: fracDigitsAux fuel (r * 10 % d) d

/-- The digit characters of the magnitude of a fraction: the integer
digits, then a `'.'` followed by the fractional digits when the
fractional part is non-zero. -/
def ratCharsM (f : Frac) : List Char :=
  natDigits (f.num.natAbs / f.den) ++
    (if f.num.natAbs % f.den = 0 then []
     else '.' :: fracDigitsAux 100 (f.num.natAbs % f.den) f.den)

/-- The character list of the decimal string of a fraction: model of
`Number.prototype.toString` on the values the calculator produces — a
minus sign for negative values followed by the magnitude digits.  A
magnitude that prints as `"0"` drops the sign (JavaScript prints `-0` as
`"0"`). -/
def ratChars (f : Frac) : List Char :=
  if f.num < 0 ∧ ratCharsM f ≠ ['0'] then '-' :: ratCharsM f else ratCharsM f

/-- Decimal string of a fraction (`result.toString()` in the source). -/
def numToString (f : Frac) : String := String.mk (ratChars f)

/-- Display text of an evaluation result:
`Number.isNaN(result) ? "Error" : result.toString()`. -/
def jsDisplay : JSNum → String
  | .nan => "Error"
  | .num f => numToString f

/-- Value of a big-endian list of digit characters. -/
def digitsToNat (l : List Char) : Nat :=
  l.foldl (fun a c => a * 10 + (c.toNat - 48)) 0

/-- Model of `parseFloat` on a character list: an optional sign, integer
digits, and an optional `'.'` followed by fractional digits; `NaN` when no
digit is found.  This is the decimal-literal fragment of `parseFloat`,
which covers every string the calculator can display. -/
def parseChars (l : List Char) : JSNum :=
  let sgn : Int := if l.head? = some '-' then -1 else 1
  let l1 := if l.head? = some '-' ∨ l.head? = some '+' then l.tail else l
  let ip := l1.takeWhile Char.isDigit
  let r2 := l1.dropWhile Char.isDigit
  let fp := match r2 with
    | '.' :: rest => rest.takeWhile Char.isDigit
    | _ => []
  if ip = [] ∧ fp = [] then .nan
  else .num ⟨sgn * ((digitsToNat ip * 10 ^ fp.length + digitsToNat fp : Nat)),
    10 ^ fp.length, Nat.pos_pow_of_pos _ (by decide)⟩

/-- `parseFloat(displayValue)`. -/
def parseNum (s : String) : JSNum := parseChars s.data

/-- The calculator state: the four `useState` hooks of `HomeScreen`. -/
structure CalculatorState where
  displayValue : String
  previousValue : Option JSNum
  operator : Option Operator
  isNewEntry : Bool
deriving DecidableEq

/-- The state at component mount: display `"0"`, no pending operand or
operator, and new-entry mode on. -/
def initialState : CalculatorState :=
  { displayValue := "0", previousValue := none, operator := none, isNewEntry := true }

/-- One button press, as dispatched by `handleButtonPress`. -/
inductive Token where
  | digit (d : Fin 10) : Token
  | dot : Token
  | clear : Token
  | toggleSign : Token
  | percent : Token
  | operator (o : Operator) : Token
  | equals : Token

/-- The one-character string for a digit button label. -/
def digitStr (d : Fin 10) : String := String.mk [digitChar d.val]

/-- Append one character to a string (`current + digit` / `current + "."`). -/
def pushChar (v : String) (c : Char) : String := String.mk (v.data ++ [c])

/-- `handleDigitPress`: replace the display by the digit when in new-entry
mode or when it shows `"0"` (leaving new-entry mode), else append the
digit. -/
def handleDigitPress (d : Fin 10) (s : CalculatorState) : CalculatorState :=
  if s.isNewEntry ∨ s.displayValue = "0" then
    { s with displayValue := digitStr d, isNewEntry := false }
  else
    { s with displayValue := pushChar s.displayValue (digitChar d.val) }

/-- `handleDotPress`: start `"0."` in new-entry mode, do nothing when the
display already contains a dot, else append a dot. -/
def handleDotPress (s : CalculatorState) : CalculatorState :=
  if s.isNewEntry then
    { s with displayValue := "0.", isNewEntry := false }
  else if '.' ∈ s.displayValue.data then s
  else { s with displayValue := pushChar s.displayValue '.' }

/-- `handleOperatorPress`: with a pending operand and operator and a fresh
second operand (`!isNewEntry`), evaluate and show the result; otherwise
just capture the current value.  Either way the new operator is stored and
new-entry mode is set. -/
def handleOperatorPress (nextOp : Operator) (s : CalculatorState) : CalculatorState :=
  let current := parseNum s.displayValue
  match s.previousValue, s.operator, s.isNewEntry with
  | some pv, some op, false =>
    let result := performCalculation op pv current
    { displayValue := jsDisplay result, previousValue := some result,
      operator := some nextOp, isNewEntry := true }
  | _, _, _ =>
    { s with previousValue := some current, operator := some nextOp, isNewEntry := true }

/-- `handleEqualsPress`: a no-op without a pending operator and operand;
otherwise evaluate, show the result, clear the pending pair and set
new-entry mode. -/
def handleEqualsPress (s : CalculatorState) : CalculatorState :=
  match s.operator, s.previousValue with
  | some op, some pv =>
    let result := performCalculation op pv (parseNum s.displayValue)
    { displayValue := jsDisplay result, previousValue := none,
      operator := none, isNewEntry := true }
  | _, _ => s

/-- `handleClearPress`: reset every field to its initial value. -/
def handleClearPress (_s : CalculatorState) : CalculatorState := initialState

/-- The display update of `handleToggleSignPress`'s `setDisplayValue`
callback: a no-op on `"0"` and `"Error"`; otherwise strip a leading `-`
(`current.slice(1)`) or prepend one (`"-" + current`). -/
def toggleStr (v : String) : String :=
  if v = "0" ∨ v = "Error" then v
  else if v.data.head? = some '-' then String.mk v.data.tail
  else String.mk ('-' :: v.data)

/-- `handleToggleSignPress`: rewrite the display through `toggleStr`. -/
def handleToggleSignPress (s : CalculatorState) : CalculatorState :=
  { s with displayValue := toggleStr s.displayValue }

/-- The display update of `handlePercentPress`'s `setDisplayValue`
callback: a no-op when the text does not parse as a number, else the
decimal string of `value / 100`. -/
def percentStr (v : String) : String :=
  match parseChars v.data with
  | .nan => v
  | .num q => numToString (fracDiv q frac100 (by decide))

/-- `handlePercentPress`: rewrite the display through `percentStr`. -/
def handlePercentPress (s : CalculatorState) : CalculatorState :=
  { s with displayValue := percentStr s.displayValue }

/-- The reducer: dispatch one token to its handler (`handleButtonPress`). -/
def apply (s : CalculatorState) : Token → CalculatorState
  | .digit d => handleDigitPress d s
  | .dot => handleDotPress s
  | .clear => handleClearPress s
  | .toggleSign => handleToggleSignPress s
  | .percent => handlePercentPress s
  | .operator o => handleOperatorPress o s
  | .equals => handleEqualsPress s

/-- Fold a whole sequence of button presses over a state. -/
def applyAll (s : CalculatorState) (ts : List Token) : CalculatorState :=
  ts.foldl apply s

/-- A state the UI can actually be in: produced from the mount state by
some sequence of button presses. -/
def Reachable (s : CalculatorState) : Prop :=
  ∃ ts : List Token, applyAll initialState ts = s

/-- The character list of the string `"Error"`. -/
def errChars : List Char := ['E', 'r', 'r', 'o', 'r']

/-- Well-formed display text: either the error string, or an optional
leading minus followed by digits (with a possible decimal point further
on), where a signed magnitude is never the bare `"0"`. -/
def wfChars (l : List Char) : Bool :=
  match l with
  | [] => false
  | c :: cs =>
    if c = '-' then
      match cs with
      | [] => false
      | d :: ds => d.isDigit && decide (d :: ds ≠ ['0'])
    else
      decide (c :: cs = errChars) || c.isDigit

/-- Number of decimal-point characters in a string. -/
def dotCount (s : String) : Nat := s.data.count '.'

/-- The reachability invariant: the display is well formed with at most
one decimal point, an error display always has new-entry mode set, and
the pending operator and operand are present or absent together. -/
def Inv (s : CalculatorState) : Prop :=
  wfChars s.displayValue.data = true ∧
  dotCount s.displayValue ≤ 1 ∧
  (s.displayValue = "Error" → s.isNewEntry = true) ∧
  (s.operator = none ↔ s.previousValue = none)

/-! Support lemmas about characters and digit strings. -/

theorem digitChar_isDigit {n : Nat} (h : n ≤ 9) : (digitChar n).isDigit = true := by
  interval_cases n <;> decide

theorem isDigit_ne_dot {c : Char} (h : c.isDigit = true) : c ≠ '.' := by
  rintro rfl; exact absurd h (by decide)

theorem isDigit_ne_dash {c : Char} (h : c.isDigit = true) : c ≠ '-' := by
  rintro rfl; exact absurd h (by decide)

theorem isDigit_ne_upperE {c : Char} (h : c.isDigit = true) : c ≠ 'E' := by
  rintro rfl; exact absurd h (by decide)

theorem digitChar_eq_zero {n : Nat} (h : n ≤ 9) : digitChar n = '0' → n = 0 := by
  interval_cases n <;> decide

theorem str_eq_iff {a b : String} : a = b ↔ a.data = b.data :=
  ⟨congrArg String.data, String.ext⟩

theorem error_data : ("Error" : String).data = errChars := rfl

theorem natDigitsAux_spec :
    ∀ fuel n, n < fuel →
      (∃ d ds, natDigitsAux fuel n = d :: ds ∧ d.isDigit = true) ∧
      (∀ c ∈ natDigitsAux fuel n, c.isDigit = true) ∧
      (natDigitsAux fuel n = ['0'] → n = 0) := by
  intro fuel
  induction fuel with
  | zero => intro n hn; omega
  | succ f ih =>
    intro n hn
    by_cases h : n < 10
    · refine ⟨⟨digitChar n, [], by simp [natDigitsAux, h], digitChar_isDigit (by omega)⟩, ?_, ?_⟩
      · intro c hc
        simp [natDigitsAux, h] at hc
        subst hc
        exact digitChar_isDigit (by omega)
      · intro he
        simp [natDigitsAux, h] at he
        exact digitChar_eq_zero (by omega) he
    · have hd : n / 10 < f := by
        have h1 : n / 10 < n := Nat.div_lt_self (by omega) (by omega)
        omega
      obtain ⟨⟨d, ds, hds, hdig⟩, hall, -⟩ := ih (n / 10) hd
      have hrw : natDigitsAux (f + 1) n
          = natDigitsAux f (n / 10) ++ [digitChar (n % 10)] := by
        simp [natDigitsAux, h]
      refine ⟨⟨d, ds ++ [digitChar (n % 10)], by rw [hrw, hds]; rfl, hdig⟩, ?_, ?_⟩
      · intro c hc
        rw [hrw] at hc
        rcases List.mem_append.mp hc with h1 | h1
        · exact hall c h1
        · have h2 : c = digitChar (n % 10) := by simpa using h1
          subst h2
          exact digitChar_isDigit (by omega)
      · intro he
        rw [hrw, hds] at he
        simp at he

theorem natDigits_shape (n : Nat) :
    ∃ d ds, natDigits n = d :: ds ∧ d.isDigit = true :=
  (natDigitsAux_spec (n + 1) n (Nat.lt_succ_self n)).1

theorem natDigits_all (n : Nat) : ∀ c ∈ natDigits n, c.isDigit = true :=
  (natDigitsAux_spec (n + 1) n (Nat.lt_succ_self n)).2.1

theorem fracDigitsAux_all :
    ∀ fuel r d, 0 < d → r < d → ∀ c ∈ fracDigitsAux fuel r d, c.isDigit = true := by
  intro fuel
  induction fuel with
  | zero => intro r d _ _ c hc; simp [fracDigitsAux] at hc
  | succ f ih =>
    intro r d hd hr c hc
    by_cases h0 : r = 0
    · simp [fracDigitsAux, h0] at hc
    · have hrw : fracDigitsAux (f + 1) r d
          = digitChar (r * 10 / d) :: fracDigitsAux f (r * 10 % d) d := by
        simp [fracDigitsAux, h0]
      rw [hrw] at hc
      rcases List.mem_cons.mp hc with rfl | hc
      · have hlt : r * 10 / d < 10 :=
          (Nat.div_lt_iff_lt_mul hd).mpr (by omega)
        exact digitChar_isDigit (by omega)
      · exact ih (r * 10 % d) d hd (Nat.mod_lt _ hd) c hc

theorem count_dot_eq_zero {l : List Char} (h : ∀ c ∈ l, c.isDigit = true) :
    l.count '.' = 0 :=
  List.count_eq_zero.mpr (fun hm => isDigit_ne_dot (h _ hm) rfl)

theorem ratCharsM_shape (f : Frac) :
    ∃ d ds, ratCharsM f = d :: ds ∧ d.isDigit = true := by
  obtain ⟨d, ds, hds, hdig⟩ := natDigits_shape (f.num.natAbs / f.den)
  refine ⟨d, ds ++ (if f.num.natAbs % f.den = 0 then []
    else '.' :: fracDigitsAux 100 (f.num.natAbs % f.den) f.den), ?_, hdig⟩
  simp [ratCharsM, hds]

theorem ratCharsM_dot (f : Frac) : (ratCharsM f).count '.' ≤ 1 := by
  unfold ratCharsM
  rw [List.count_append]
  have h1 : (natDigits (f.num.natAbs / f.den)).count '.' = 0 :=
    count_dot_eq_zero (natDigits_all _)
  by_cases h : f.num.natAbs % f.den = 0
  · simp [h, h1]
  · rw [if_neg h]
    have h2 : (fracDigitsAux 100 (f.num.natAbs % f.den) f.den).count '.' = 0 :=
      count_dot_eq_zero (fracDigitsAux_all 100 _ _ f.den_pos (Nat.mod_lt _ f.den_pos))
    simp [h1, List.count_cons, h2]

theorem ratChars_spec (f : Frac) :
    (∃ d ds, ratChars f = d :: ds ∧ d.isDigit = true) ∨
    (∃ d ds, ratChars f = '-' :: d :: ds ∧ d.isDigit = true ∧ d :: ds ≠ ['0']) := by
  obtain ⟨d, ds, hds, hdig⟩ := ratCharsM_shape f
  unfold ratChars
  by_cases h : f.num < 0 ∧ ratCharsM f ≠ ['0']
  · right
    rw [if_pos h, hds]
    exact ⟨d, ds, rfl, hdig, hds ▸ h.2⟩
  · left
    rw [if_neg h, hds]
    exact ⟨d, ds, rfl, hdig⟩

theorem ratChars_dot (f : Frac) : (ratChars f).count '.' ≤ 1 := by
  unfold ratChars
  by_cases h : f.num < 0 ∧ ratCharsM f ≠ ['0']
  · rw [if_pos h]
    have := ratCharsM_dot f
    simp [List.count_cons]
    omega
  · rw [if_neg h]
    exact ratCharsM_dot f

theorem ratChars_wf (f : Frac) : wfChars (ratChars f) = true := by
  rcases ratChars_spec f with ⟨d, ds, hds, hdig⟩ | ⟨d, ds, hds, hdig, hne⟩
  · rw [hds]
    simp [wfChars, if_neg (isDigit_ne_dash hdig), hdig]
  · rw [hds]
    simp [wfChars, hdig, hne]

theorem ratChars_ne_err (f : Frac) : ratChars f ≠ errChars := by
  rcases ratChars_spec f with ⟨d, ds, hds, hdig⟩ | ⟨d, ds, hds, hdig, -⟩ <;> rw [hds]
  · intro he
    injection he with h1 h2
    exact isDigit_ne_upperE hdig h1
  · intro he
    injection he with h1 h2
    exact absurd h1 (by decide)

theorem numToString_ne_error (f : Frac) : numToString f ≠ "Error" := by
  intro he
  exact ratChars_ne_err f (str_eq_iff.mp he)

/-! Manipulation lemmas for well-formed display text. -/

theorem wf_head {l : List Char} (hw : wfChars l = true) (herr : l ≠ errChars) :
    ∃ c cs, l = c :: cs ∧ (c.isDigit = true ∨ c = '-') := by
  rcases l with - | ⟨c, cs⟩
  · exact absurd hw (by simp [wfChars])
  · by_cases h0 : c = '-'
    · exact ⟨c, cs, rfl, Or.inr h0⟩
    · refine ⟨c, cs, rfl, Or.inl ?_⟩
      simp [wfChars, h0] at hw
      rcases hw with hw | hw
      · exact absurd hw herr
      · exact hw

theorem wf_ne_err_append {l : List Char} (hw : wfChars l = true)
    (herr : l ≠ errChars) (c : Char) : l ++ [c] ≠ errChars := by
  obtain ⟨c0, cs, rfl, hc0⟩ := wf_head hw herr
  intro he
  rw [List.cons_append] at he
  injection he with h1 h2
  rcases hc0 with hc0 | hc0
  · exact isDigit_ne_upperE hc0 h1
  · exact absurd (hc0 ▸ h1) (by decide)

theorem wfChars_neg_cons (d : Char) (ds : List Char) :
    wfChars ('-' :: d :: ds) = (d.isDigit && decide (d :: ds ≠ ['0'])) := rfl

theorem wf_push {l : List Char} (c : Char) (hw : wfChars l = true)
    (herr : l ≠ errChars) : wfChars (l ++ [c]) = true := by
  rcases l with - | ⟨c0, cs⟩
  · exact absurd hw (by simp [wfChars])
  · by_cases h0 : c0 = '-'
    · subst h0
      rcases cs with - | ⟨d, ds⟩
      · exact absurd hw (by simp [wfChars])
      · rw [wfChars_neg_cons, Bool.and_eq_true, decide_eq_true_eq] at hw
        rw [List.cons_append, List.cons_append, wfChars_neg_cons,
          Bool.and_eq_true, decide_eq_true_eq]
        exact ⟨hw.1, by simp⟩
    · have hd : c0.isDigit = true := by
        simp [wfChars, h0] at hw
        rcases hw with hw | hw
        · exact absurd hw herr
        · exact hw
      rw [List.cons_append]
      simp [wfChars, h0, hd]

theorem wf_tail {d : Char} {ds : List Char}
    (hw : wfChars ('-' :: d :: ds) = true) : wfChars (d :: ds) = true := by
  rw [wfChars_neg_cons, Bool.and_eq_true] at hw
  simp [wfChars, if_neg (isDigit_ne_dash hw.1), hw.1]

theorem wf_cons_neg {l : List Char} (hw : wfChars l = true) (h0 : l ≠ ['0'])
    (herr : l ≠ errChars) (hdash : l.head? ≠ some '-') :
    wfChars ('-' :: l) = true := by
  rcases l with - | ⟨c, cs⟩
  · exact absurd hw (by simp [wfChars])
  · have hc : c ≠ '-' := fun e => hdash (by simp [e])
    have hd : c.isDigit = true := by
      simp [wfChars, hc] at hw
      rcases hw with hw | hw
      · exact absurd hw herr
      · exact hw
    simp [wfChars, hd, h0]

theorem wf_digit_head {d : Char} {ds : List Char}
    (hw : wfChars ('-' :: d :: ds) = true) :
    d.isDigit = true ∧ d :: ds ≠ ['0'] := by
  rw [wfChars_neg_cons, Bool.and_eq_true, decide_eq_true_eq] at hw
  exact hw

theorem ne_err_digit_head {d : Char} {ds : List Char} (hd : d.isDigit = true) :
    d :: ds ≠ errChars := by
  intro he
  injection he with h1 h2
  exact isDigit_ne_upperE hd h1

/-! Facts about the digit-button strings, checked by evaluation. -/

theorem digitStr_wf : ∀ d : Fin 10, wfChars (digitStr d).data = true := by decide

theorem digitStr_dot : ∀ d : Fin 10, dotCount (digitStr d) = 0 := by decide

theorem digitStr_ne_error : ∀ d : Fin 10, digitStr d ≠ "Error" := by decide

theorem digitChar_fin_ne_dot : ∀ d : Fin 10, digitChar d.val ≠ '.' := by decide

/-! Preservation of the reachability invariant, handler by handler. -/

theorem disp_ne_err_data {v : String} (h : v ≠ "Error") : v.data ≠ errChars :=
  fun hh => h (str_eq_iff.mpr hh)

theorem dotCount_push {v : String} {c : Char} (hc : c ≠ '.') :
    dotCount (pushChar v c) = dotCount v := by
  have h1 : ([c] : List Char).count '.' = 0 :=
    List.count_eq_zero.mpr (by simp [Ne.symm hc])
  simp [dotCount, pushChar, List.count_append, h1]

theorem dotCount_push_dot {v : String} (hc : '.' ∉ v.data) :
    dotCount (pushChar v '.') = 1 := by
  have h0 : v.data.count '.' = 0 := List.count_eq_zero.mpr hc
  simp [dotCount, pushChar, List.count_append, h0]

theorem jsDisplay_wf (r : JSNum) : wfChars (jsDisplay r).data = true := by
  cases r with
  | nan => decide
  | num f => exact ratChars_wf f

theorem jsDisplay_dot (r : JSNum) : dotCount (jsDisplay r) ≤ 1 := by
  cases r with
  | nan => decide
  | num f => exact ratChars_dot f

theorem inv_initial : Inv initialState := by
  refine ⟨by decide, by decide, ?_, iff_of_true rfl rfl⟩
  intro he
  exact absurd he (by decide)

theorem inv_digit (d : Fin 10) {s : CalculatorState} (h : Inv s) :
    Inv (handleDigitPress d s) := by
  obtain ⟨hw, hdot, herr, hop⟩ := h
  unfold handleDigitPress
  by_cases hc : s.isNewEntry = true ∨ s.displayValue = "0"
  · rw [if_pos hc]
    refine ⟨digitStr_wf d, ?_, ?_, hop⟩
    · rw [digitStr_dot d]; omega
    · intro he; exact absurd he (digitStr_ne_error d)
  · rw [if_neg hc]
    push_neg at hc
    have hne : s.displayValue ≠ "Error" := fun he => hc.1 (herr he)
    have hd : s.displayValue.data ≠ errChars := disp_ne_err_data hne
    refine ⟨wf_push _ hw hd, ?_, ?_, hop⟩
    · rw [dotCount_push (digitChar_fin_ne_dot d)]; exact hdot
    · intro he
      exact absurd (str_eq_iff.mp he) (wf_ne_err_append hw hd _)

theorem inv_dot {s : CalculatorState} (h : Inv s) : Inv (handleDotPress s) := by
  obtain ⟨hw, hdot, herr, hop⟩ := h
  unfold handleDotPress
  by_cases h1 : s.isNewEntry = true
  · rw [if_pos h1]
    refine ⟨?_, ?_, ?_, hop⟩
    · show wfChars ("0." : String).data = true
      decide
    · show dotCount "0." ≤ 1
      decide
    · intro he
      exact absurd he (show ("0." : String) ≠ "Error" by decide)
  · rw [if_neg h1]
    by_cases h2 : '.' ∈ s.displayValue.data
    · rw [if_pos h2]; exact ⟨hw, hdot, herr, hop⟩
    · rw [if_neg h2]
      have hne : s.displayValue ≠ "Error" := fun he => h1 (herr he)
      have hd : s.displayValue.data ≠ errChars := disp_ne_err_data hne
      refine ⟨wf_push _ hw hd, ?_, ?_, hop⟩
      · rw [dotCount_push_dot h2]
      · intro he
        exact absurd (str_eq_iff.mp he) (wf_ne_err_append hw hd _)

theorem toggleStr_def (v : String) : toggleStr v =
    if v = "0" ∨ v = "Error" then v
    else if v.data.head? = some '-' then String.mk v.data.tail
    else String.mk ('-' :: v.data) := rfl

theorem toggleStr_wf {v : String} (hw : wfChars v.data = true) :
    wfChars (toggleStr v).data = true := by
  rw [toggleStr_def]
  by_cases h1 : v = "0" ∨ v = "Error"
  · rw [if_pos h1]; exact hw
  · rw [if_neg h1]
    push_neg at h1
    obtain ⟨hz, he⟩ := h1
    by_cases h2 : v.data.head? = some '-'
    · rw [if_pos h2]
      rcases hdata : v.data with - | ⟨c0, rest⟩
      · rw [hdata] at hw; exact absurd hw (by simp [wfChars])
      · have hc0 : c0 = '-' := by rw [hdata] at h2; simpa using h2
        subst hc0
        rw [hdata] at hw
        rcases rest with - | ⟨d, ds⟩
        · exact absurd hw (by simp [wfChars])
        · exact wf_tail hw
    · rw [if_neg h2]
      exact wf_cons_neg hw (fun hh => hz (str_eq_iff.mpr hh))
        (disp_ne_err_data he) h2

theorem toggleStr_dot {v : String} (hd : dotCount v ≤ 1) :
    dotCount (toggleStr v) ≤ 1 := by
  rw [toggleStr_def]
  by_cases h1 : v = "0" ∨ v = "Error"
  · rw [if_pos h1]; exact hd
  · rw [if_neg h1]
    by_cases h2 : v.data.head? = some '-'
    · rw [if_pos h2]
      show (v.data.tail.count '.') ≤ 1
      exact le_trans ((List.tail_sublist _).count_le _) hd
    · rw [if_neg h2]
      show (('-' :: v.data).count '.') ≤ 1
      rw [List.count_cons_of_ne (by decide)]
      exact hd

theorem toggleStr_err {v : String} (hw : wfChars v.data = true) :
    toggleStr v = "Error" → v = "Error" := by
  rw [toggleStr_def]
  by_cases h1 : v = "0" ∨ v = "Error"
  · rw [if_pos h1]; exact id
  · rw [if_neg h1]
    by_cases h2 : v.data.head? = some '-'
    · rw [if_pos h2]
      intro heq
      rcases hdata : v.data with - | ⟨c0, rest⟩
      · rw [hdata] at hw; exact absurd hw (by simp [wfChars])
      · have hc0 : c0 = '-' := by rw [hdata] at h2; simpa using h2
        subst hc0
        rw [hdata] at hw heq
        rcases rest with - | ⟨d, ds⟩
        · exact absurd hw (by simp [wfChars])
        · obtain ⟨hdig, -⟩ := wf_digit_head hw
          exact absurd (str_eq_iff.mp heq) (ne_err_digit_head hdig)
    · rw [if_neg h2]
      intro heq
      have h3 := str_eq_iff.mp heq
      injection h3 with h4 h5
      exact absurd h4 (by decide)

theorem toggleStr_noop {v : String} (h : v = "0" ∨ v = "Error") :
    toggleStr v = v := by
  rw [toggleStr_def, if_pos h]

theorem inv_toggle {s : CalculatorState} (h : Inv s) :
    Inv (handleToggleSignPress s) := by
  obtain ⟨hw, hdot, herr, hop⟩ := h
  exact ⟨toggleStr_wf hw, toggleStr_dot hdot,
    fun he => herr (toggleStr_err hw he), hop⟩

theorem inv_operatorPress (o : Operator) {s : CalculatorState} (h : Inv s) :
    Inv (handleOperatorPress o s) := by
  obtain ⟨hw, hdot, herr, hop⟩ := h
  unfold handleOperatorPress
  split
  · exact ⟨jsDisplay_wf _, jsDisplay_dot _, fun _ => rfl,
      iff_of_false (by simp) (by simp)⟩
  · exact ⟨hw, hdot, fun _ => rfl, iff_of_false (by simp) (by simp)⟩

theorem inv_equalsPress {s : CalculatorState} (h : Inv s) :
    Inv (handleEqualsPress s) := by
  obtain ⟨hw, hdot, herr, hop⟩ := h
  unfold handleEqualsPress
  split
  · exact ⟨jsDisplay_wf _, jsDisplay_dot _, fun _ => rfl, iff_of_true rfl rfl⟩
  · exact ⟨hw, hdot, herr, hop⟩

theorem percentStr_wf {v : String} (hw : wfChars v.data = true) :
    wfChars (percentStr v).data = true := by
  unfold percentStr
  split
  · exact hw
  · exact ratChars_wf _

theorem percentStr_dot {v : String} (hd : dotCount v ≤ 1) :
    dotCount (percentStr v) ≤ 1 := by
  unfold percentStr
  split
  · exact hd
  · exact ratChars_dot _

theorem percentStr_err {v : String} : percentStr v = "Error" → v = "Error" := by
  unfold percentStr
  split
  · exact id
  · intro heq
    exact absurd heq (numToString_ne_error _)

theorem inv_percent {s : CalculatorState} (h : Inv s) :
    Inv (handlePercentPress s) := by
  obtain ⟨hw, hdot, herr, hop⟩ := h
  exact ⟨percentStr_wf hw, percentStr_dot hdot,
    fun he => herr (percentStr_err he), hop⟩

theorem inv_apply {s : CalculatorState} (h : Inv s) (t : Token) :
    Inv (apply s t) := by
  cases t with
  | digit d => exact inv_digit d h
  | dot => exact inv_dot h
  | clear => exact inv_initial
  | toggleSign => exact inv_toggle h
  | percent => exact inv_percent h
  | operator o => exact inv_operatorPress o h
  | equals => exact inv_equalsPress h

theorem inv_applyAll : ∀ (ts : List Token) (s : CalculatorState),
    Inv s → Inv (applyAll s ts)
  | [], _, h => h
  | t :: ts, s, h => inv_applyAll ts (apply s t) (inv_apply h t)

theorem reachable_inv {s : CalculatorState} (h : Reachable s) : Inv s := by
  obtain ⟨ts, rfl⟩ := h
  exact inv_applyAll ts initialState inv_initial

/-! Further helper lemmas used by the claim theorems. -/

theorem toggleStr_roundtrip {v : String} (hw : wfChars v.data = true)
    (hz : v ≠ "0") (he : v ≠ "Error") : toggleStr (toggleStr v) = v := by
  by_cases h2 : v.data.head? = some '-'
  · rcases hdata : v.data with - | ⟨c0, rest⟩
    · rw [hdata] at hw; exact absurd hw (by simp [wfChars])
    · have hc0 : c0 = '-' := by rw [hdata] at h2; simpa using h2
      subst hc0
      rw [hdata] at hw
      rcases rest with - | ⟨d, ds⟩
      · exact absurd hw (by simp [wfChars])
      · obtain ⟨hdig, hne0⟩ := wf_digit_head hw
        have hinner : toggleStr v = String.mk (d :: ds) := by
          rw [toggleStr_def, if_neg (by tauto), if_pos h2]
          exact String.ext (by rw [hdata]; rfl)
        rw [hinner]
        have g1 : String.mk (d :: ds) ≠ "0" := by
          intro hh
          exact hne0 (congrArg String.data hh)
        have g2 : String.mk (d :: ds) ≠ "Error" := by
          intro hh
          exact ne_err_digit_head hdig (congrArg String.data hh)
        have g3 : (String.mk (d :: ds)).data.head? ≠ some '-' := by
          intro hh
          exact isDigit_ne_dash hdig (by simpa using hh)
        rw [toggleStr_def, if_neg (by tauto), if_neg g3]
        exact String.ext (by rw [hdata])
  · have hinner : toggleStr v = String.mk ('-' :: v.data) := by
      rw [toggleStr_def, if_neg (by tauto), if_neg h2]
    rw [hinner]
    have g1 : String.mk ('-' :: v.data) ≠ "0" := by
      intro hh
      have h3 := congrArg String.data hh
      injection h3 with h4 h5
      exact absurd h4 (by decide)
    have g2 : String.mk ('-' :: v.data) ≠ "Error" := by
      intro hh
      have h3 := congrArg String.data hh
      injection h3 with h4 h5
      exact absurd h4 (by decide)
    rw [toggleStr_def, if_neg (by tauto),
      if_pos (show (String.mk ('-' :: v.data)).data.head? = some '-' from rfl)]
    exact String.ext rfl

theorem dotCount_step {s : CalculatorState} (t : Token)
    (h : dotCount s.displayValue ≤ 1) : dotCount (apply s t).displayValue ≤ 1 := by
  cases t with
  | digit d =>
    show dotCount (handleDigitPress d s).displayValue ≤ 1
    unfold handleDigitPress
    split
    · show dotCount (digitStr d) ≤ 1
      rw [digitStr_dot]
      omega
    · show dotCount (pushChar s.displayValue (digitChar d.val)) ≤ 1
      rw [dotCount_push (digitChar_fin_ne_dot d)]
      exact h
  | dot =>
    show dotCount (handleDotPress s).displayValue ≤ 1
    unfold handleDotPress
    split
    · show dotCount "0." ≤ 1
      decide
    · split
      · exact h
      · next h2 =>
        show dotCount (pushChar s.displayValue '.') ≤ 1
        exact (dotCount_push_dot h2).le
  | clear =>
    show dotCount initialState.displayValue ≤ 1
    decide
  | toggleSign => exact toggleStr_dot h
  | percent => exact percentStr_dot h
  | operator o =>
    show dotCount (handleOperatorPress o s).displayValue ≤ 1
    unfold handleOperatorPress
    split
    · exact jsDisplay_dot _
    · exact h
  | equals =>
    show dotCount (handleEqualsPress s).displayValue ≤ 1
    unfold handleEqualsPress
    split
    · exact jsDisplay_dot _
    · exact h

/-! The claim theorems. -/

/-- Claim C1: from the initial state, Digit(3), Operator(Add), Digit(4),
Operator(Add), Digit(2), Equals leaves the display `"9"`, with the pending
`3 + 4` already shown as `"7"` after the second operator press. -/
theorem chained_addition_eval :
    (applyAll initialState
      [.digit 3, .operator .add, .digit 4, .operator .add]).displayValue = "7" ∧
    (applyAll initialState
      [.digit 3, .operator .add, .digit 4, .operator .add,
        .digit 2, .equals]).displayValue = "9" :=
  ⟨by decide, by decide⟩

/-- Claim C2: `performCalculation` on `÷` returns `NaN` whenever the
divisor has value zero, whatever the left operand is, and the sequence
Digit(5), Operator(Divide), Digit(0), Equals displays `"Error"`. -/
theorem divide_by_zero_error :
    (∀ (a : JSNum) (f : Frac), f.num = 0 →
      performCalculation Operator.div a (JSNum.num f) = JSNum.nan) ∧
    (applyAll initialState
      [.digit 5, .operator .div, .digit 0, .equals]).displayValue = "Error" := by
  refine ⟨?_, by decide⟩
  intro a f hf
  cases a <;> simp [performCalculation, hf]

theorem divide_by_zero_error_witness :
    performCalculation Operator.div (JSNum.num ⟨5, 1, Nat.one_pos⟩)
      (JSNum.num ⟨0, 1, Nat.one_pos⟩) = JSNum.nan :=
  divide_by_zero_error.1 _ _ rfl

/-- Claim C3: in any reachable state whose display is `"Error"`, pressing
any digit replaces the display by that single digit. -/
theorem digit_clears_error {s : CalculatorState} (d : Fin 10) (hr : Reachable s)
    (he : s.displayValue = "Error") :
    (apply s (Token.digit d)).displayValue = digitStr d := by
  obtain ⟨-, -, herr, -⟩ := reachable_inv hr
  show (handleDigitPress d s).displayValue = digitStr d
  unfold handleDigitPress
  rw [if_pos (Or.inl (herr he))]

theorem digit_clears_error_witness :
    (apply (applyAll initialState [.digit 5, .operator .div, .digit 0, .equals])
      (Token.digit 7)).displayValue = digitStr 7 :=
  digit_clears_error 7
    ⟨[.digit 5, .operator .div, .digit 0, .equals], rfl⟩ (by decide)

/-- Claim C4: every reachable display holds at most one decimal point, and
a single reducer step preserves that bound from any state. -/
theorem dot_invariant :
    (∀ s : CalculatorState, Reachable s → dotCount s.displayValue ≤ 1) ∧
    (∀ (s : CalculatorState) (t : Token),
      dotCount s.displayValue ≤ 1 → dotCount (apply s t).displayValue ≤ 1) :=
  ⟨fun _ hr => (reachable_inv hr).2.1, fun _ t h => dotCount_step t h⟩

theorem dot_invariant_witness :
    dotCount (applyAll initialState [.digit 3, .dot, .digit 1]).displayValue ≤ 1 ∧
    dotCount (apply (applyAll initialState [.digit 3, .dot, .digit 1])
      Token.dot).displayValue ≤ 1 :=
  ⟨dot_invariant.1 _ ⟨[.digit 3, .dot, .digit 1], rfl⟩,
    dot_invariant.2 _ Token.dot (by decide)⟩

/-- Claim C5: in every reachable state the pending operator is absent
exactly when the pending operand is absent. -/
theorem operator_previous_iff {s : CalculatorState} (hr : Reachable s) :
    s.operator = none ↔ s.previousValue = none :=
  (reachable_inv hr).2.2.2

theorem operator_previous_iff_witness :
    ((applyAll initialState [.digit 3, .operator .add]).operator = none ↔
      (applyAll initialState [.digit 3, .operator .add]).previousValue = none) :=
  operator_previous_iff ⟨[.digit 3, .operator .add], rfl⟩

/-- Claim C7: on any reachable state, toggling the sign twice restores a
display that is neither `"0"` nor `"Error"`, and toggling once on `"0"` or
`"Error"` leaves the display unchanged. -/
theorem toggleSign_roundtrip {s : CalculatorState} (hr : Reachable s) :
    (s.displayValue ≠ "0" → s.displayValue ≠ "Error" →
      (apply (apply s Token.toggleSign) Token.toggleSign).displayValue
        = s.displayValue) ∧
    ((s.displayValue = "0" ∨ s.displayValue = "Error") →
      (apply s Token.toggleSign).displayValue = s.displayValue) := by
  obtain ⟨hw, -, -, -⟩ := reachable_inv hr
  constructor
  · intro hz he
    show toggleStr (toggleStr s.displayValue) = s.displayValue
    exact toggleStr_roundtrip hw hz he
  · intro h
    show toggleStr s.displayValue = s.displayValue
    exact toggleStr_noop h

theorem toggleSign_roundtrip_witness :
    (apply (apply (applyAll initialState [.digit 5]) Token.toggleSign)
        Token.toggleSign).displayValue
      = (applyAll initialState [.digit 5]).displayValue ∧
    (apply initialState Token.toggleSign).displayValue
      = initialState.displayValue :=
  ⟨(toggleSign_roundtrip ⟨[.digit 5], rfl⟩).1 (by decide) (by decide),
    (toggleSign_roundtrip ⟨[], rfl⟩).2 (Or.inl rfl)⟩

/-- Claim C8: Percent replaces the display by the decimal string of the
parsed value divided by 100, leaving the pending operand and operator
unchanged; it is a no-op when the display does not parse; and Digit(5),
Digit(0), Percent shows `"0.5"`. -/
theorem percent_scales_display :
    (∀ (s : CalculatorState) (q : Frac), parseNum s.displayValue = JSNum.num q →
      (apply s Token.percent).displayValue
          = numToString (fracDiv q frac100 (by decide)) ∧
        (apply s Token.percent).previousValue = s.previousValue ∧
        (apply s Token.percent).operator = s.operator) ∧
    (∀ s : CalculatorState, parseNum s.displayValue = JSNum.nan →
      apply s Token.percent = s) ∧
    (applyAll initialState [.digit 5, .digit 0, .percent]).displayValue = "0.5" := by
  refine ⟨?_, ?_, by decide⟩
  · intro s q hq
    refine ⟨?_, rfl, rfl⟩
    show percentStr s.displayValue = _
    unfold percentStr
    rw [show parseChars s.displayValue.data = JSNum.num q from hq]
  · intro s hs
    show handlePercentPress s = s
    have hv : percentStr s.displayValue = s.displayValue := by
      unfold percentStr
      rw [show parseChars s.displayValue.data = JSNum.nan from hs]
    unfold handlePercentPress
    rw [hv]

theorem percent_scales_display_witness :
    (apply (applyAll initialState [.digit 5, .digit 0]) Token.percent).displayValue
        = numToString (fracDiv ⟨50, 1, Nat.one_pos⟩ frac100 (by decide)) ∧
    apply (applyAll initialState [.digit 5, .operator .div, .digit 0, .equals])
        Token.percent
      = applyAll initialState [.digit 5, .operator .div, .digit 0, .equals] :=
  ⟨(percent_scales_display.1 (applyAll initialState [.digit 5, .digit 0])
      ⟨50, 1, Nat.one_pos⟩ (by decide)).1,
    percent_scales_display.2.1
      (applyAll initialState [.digit 5, .operator .div, .digit 0, .equals])
      (by decide)⟩

/-- Claim C9 (amended): Percent leaves the `isNewEntry` flag unchanged;
consequently, when Percent is pressed while `isNewEntry` is false and the
scaled result string is not `"0"`, a subsequent digit appends to the
scaled result rather than starting a fresh number. -/
theorem percent_preserves_newEntry (s : CalculatorState) (d : Fin 10) :
    (apply s Token.percent).isNewEntry = s.isNewEntry ∧
    (s.isNewEntry = false → (apply s Token.percent).displayValue ≠ "0" →
      (apply (apply s Token.percent) (Token.digit d)).displayValue
        = (apply s Token.percent).displayValue ++ digitStr d) := by
  refine ⟨rfl, ?_⟩
  intro hnew hne
  show (handleDigitPress d (handlePercentPress s)).displayValue = _
  unfold handleDigitPress
  have h1 : (handlePercentPress s).isNewEntry = false := hnew
  have hcond : ¬((handlePercentPress s).isNewEntry = true ∨
      (handlePercentPress s).displayValue = "0") := by
    rintro (hh | hh)
    · rw [h1] at hh
      exact absurd hh (by decide)
    · exact hne hh
  rw [if_neg hcond]
  rfl

theorem percent_preserves_newEntry_witness :
    (apply (applyAll initialState [.digit 5, .digit 0]) Token.percent).isNewEntry
      = (applyAll initialState [.digit 5, .digit 0]).isNewEntry ∧
    (apply (apply (applyAll initialState [.digit 5, .digit 0]) Token.percent)
        (Token.digit 7)).displayValue
      = (apply (applyAll initialState [.digit 5, .digit 0])
          Token.percent).displayValue ++ digitStr 7 :=
  ⟨(percent_preserves_newEntry (applyAll initialState [.digit 5, .digit 0]) 7).1,
    (percent_preserves_newEntry (applyAll initialState [.digit 5, .digit 0]) 7).2
      (by decide) (by decide)⟩

/-- Claim C9, as frozen, is false on the code: after Digit(0) the state has
`isNewEntry = false`, and Percent leaves the display `"0"`, so the next
digit replaces the display instead of appending to it. -/
theorem percent_digit_append_cex :
    (applyAll initialState [.digit 0]).isNewEntry = false ∧
    (apply (apply (applyAll initialState [.digit 0]) Token.percent)
        (Token.digit 5)).displayValue
      ≠ (apply (applyAll initialState [.digit 0]) Token.percent).displayValue
          ++ digitStr 5 :=
  ⟨by decide, by decide⟩

/-- Claim C10: in every reachable state an `"Error"` display implies
new-entry mode, so a Dot press on an error state shows `"0."`. -/
theorem error_implies_newEntry {s : CalculatorState} (hr : Reachable s)
    (he : s.displayValue = "Error") :
    s.isNewEntry = true ∧ (apply s Token.dot).displayValue = "0." := by
  have h1 : s.isNewEntry = true := (reachable_inv hr).2.2.1 he
  refine ⟨h1, ?_⟩
  show (handleDotPress s).displayValue = "0."
  unfold handleDotPress
  rw [if_pos h1]

theorem error_implies_newEntry_witness :
    (applyAll initialState
      [.digit 5, .operator .div, .digit 0, .equals]).isNewEntry = true ∧
    (apply (applyAll initialState [.digit 5, .operator .div, .digit 0, .equals])
      Token.dot).displayValue = "0." :=
  error_implies_newEntry
    ⟨[.digit 5, .operator .div, .digit 0, .equals], rfl⟩ (by decide)

end Calculator
